import Mathlib

/-!
Verification development for the web-agent core: candidate extraction
(src/html_parser.py), action normalization (src/actions.py) and decision
parsing (src/llm_client.py).

The Python code is shallowly embedded.  Pure Python string operations are
modelled on `List Char` (Python slices by code points); `str.strip` is
modelled on the ASCII whitespace subset.  The BeautifulSoup document is
modelled as an `HtmlNode` tree: the parsing of raw bytes into the tree is
the external library (bs4/lxml) and is out of scope, so `parse_html` is
embedded from the soup tree onward, quantified over all trees.  Library
behaviour relied on is modelled faithfully: `find_all` is a pre-order
document traversal, `get_text(sep, strip=True)` joins the stripped
non-empty descendant strings, `Tag` truthiness is emptiness of `contents`,
attribute access returns the attribute string or a default.  Python
`json.loads` (stdlib) is modelled by `jsonParse`, a strict recursive
descent parser for the JSON value grammar (the \u escape, infinities and
NaN are left out of the rational-number model).  Machine floats are
modelled as rationals.
-/

/-! ## Python string primitives -/

/-- Python whitespace characters (ASCII subset of str.strip). -/
def pyWs (c : Char) : Bool :=
  c = ' ' || c = '\t' || c = '\n' || c = '\r' || c = '\x0b' || c = '\x0c'

/-- Model of Python str.strip(). -/
def pyStrip (s : String) : String :=
  ⟨((s.data.dropWhile pyWs).reverse.dropWhile pyWs).reverse⟩

/-- Model of the Python slice s[:n]. -/
def pyTake (s : String) (n : Nat) : String := ⟨s.data.take n⟩

/-- Model of the Python slice s[:-n] as used for the action suffix. -/
def pyDropRight (s : String) (n : Nat) : String :=
  ⟨s.data.take (s.data.length - n)⟩

/-- Model of Python str.lower() (ASCII lowering). -/
def pyLower (s : String) : String := ⟨s.data.map Char.toLower⟩

/-- Model of Python str.startswith. -/
def pyStartsWith (s pat : String) : Bool :=
  s.data.take pat.data.length = pat.data

/-- Model of Python str.endswith. -/
def pyEndsWith (s pat : String) : Bool :=
  s.data.drop (s.data.length - pat.data.length) = pat.data
    && pat.data.length ≤ s.data.length

/-- needle is an initial segment of hay. -/
def isPrefOf : List Char → List Char → Bool
  | [], _ => true
  | _ :: _, [] => false
  | a :: as, b :: bs => a = b && isPrefOf as bs

def subSearch : List Char → List Char → Bool
  | [], needle => needle.isEmpty
  | c :: rest, needle => isPrefOf needle (c :: rest) || subSearch rest needle

/-- Model of the Python substring test (needle in hay); the empty needle
is contained in everything. -/
def strContains (hay needle : String) : Bool :=
  subSearch hay.data needle.data

/-- Model of Python int(s) on strings: optional sign around a non-empty
digit run, surrounding whitespace ignored; None on failure
(underscored and non-ASCII digit forms are left out of the model). -/
def pyIntOfString (s : String) : Option Int :=
  let cs := ((s.data.dropWhile pyWs).reverse.dropWhile pyWs).reverse
  let (sign, digits) : Int × List Char :=
    match cs with
    | '-' :: rest => (-1, rest)
    | '+' :: rest => (1, rest)
    | rest => (1, rest)
  if digits ≠ [] ∧ digits.all Char.isDigit then
    some (sign * (Int.ofNat (digits.foldl (fun a c => a * 10 + (c.toNat - 48)) 0)))
  else none

/-! ## The HTML tree (the parsed BeautifulSoup document) -/

inductive HtmlNode where
  | elem (name : String) (attrs : List (String × String)) (children : List HtmlNode)
  | text (s : String)

/-- The tag name of a node; text nodes have none. -/
def HtmlNode.nameOf : HtmlNode → String
  | .elem n _ _ => n
  | .text _ => ""

def HtmlNode.attrsOf : HtmlNode → List (String × String)
  | .elem _ a _ => a
  | .text _ => []

def HtmlNode.childrenOf : HtmlNode → List HtmlNode
  | .elem _ _ cs => cs
  | .text _ => []

/-- Model of element.get(k): the attribute value, if present. -/
def getAttr (e : HtmlNode) (k : String) : Option String :=
  e.attrsOf.lookup k

/-- Model of element.get(k, d). -/
def getAttrD (e : HtmlNode) (k d : String) : String :=
  (getAttr e k).getD d

mutual
/-- Model of tag.decompose() applied to every node whose name is in
kill: the whole subtree is removed before harvesting. -/
def killNode (kill : List String) : HtmlNode → Option HtmlNode
  | .text s => some (.text s)
  | .elem n a cs =>
      if kill.contains n then none else some (.elem n a (killList kill cs))

def killList (kill : List String) : List HtmlNode → List HtmlNode
  | [] => []
  | c :: cs =>
      match killNode kill c with
      | none => killList kill cs
      | some c2 => c2 :: killList kill cs
end

mutual
/-- The descendant strings of a node in document order (bs4 .strings). -/
def texts : HtmlNode → List String
  | .text s => [s]
  | .elem _ _ cs => textsL cs

def textsL : List HtmlNode → List String
  | [] => []
  | c :: cs => texts c ++ textsL cs
end

mutual
/-- Pre-order traversal pairing every element of the forest with its
ancestor chain, nearest first (the bs4 descendants order of find_all). -/
def descAnc (anc : List HtmlNode) : HtmlNode → List (HtmlNode × List HtmlNode)
  | .text _ => []
  | .elem n a cs =>
      (HtmlNode.elem n a cs, anc) :: descAncL (HtmlNode.elem n a cs :: anc) cs

def descAncL (anc : List HtmlNode) : List HtmlNode → List (HtmlNode × List HtmlNode)
  | [] => []
  | c :: cs => descAnc anc c ++ descAncL anc cs
end

/-- The strict element descendants of a node in document order
(what tag.find_all / tag.find search). -/
def strictDesc (e : HtmlNode) : List HtmlNode :=
  match e with
  | .elem _ _ cs => (descAncL [] cs).map Prod.fst
  | .text _ => []

/-- Model of element.get_text(separator=sep, strip=True): each descendant
string stripped, empties skipped, joined by sep. -/
def getText (sep : String) (e : HtmlNode) : String :=
  String.intercalate sep (((texts e).map pyStrip).filter (fun s => s != ""))

/-- Model of element.get_text(strip=True) (empty separator). -/
def getTextStrip (e : HtmlNode) : String := getText "" e

/-! ## Selectors (src/actions.py make_selector, src/html_parser.py) -/

structure Selector where
  selType : String
  attrName : String
  value : String
  case_sensitive : Bool
deriving DecidableEq

/-- Model of make_selector (src/actions.py).  The field attrName models
the Python selector key named for the attribute (a Lean keyword).  The
Python defaults are selector_type="attributeValueSelector", an id
attribute, value="", case_sensitive=False; call sites below pass their
effective values explicitly. -/
def make_selector (selType attrName value : String) (case_sensitive : Bool) : Selector :=
  { selType := selType, attrName := attrName, value := value,
    case_sensitive := case_sensitive }

/-- Model of _get_visible_text (src/html_parser.py). -/
def visibleText (e : HtmlNode) : String :=
  let t := getText " " e
  let t := if t = "" then
      (let a := getAttrD e "aria-label" ""
       if a != "" then a else getAttrD e "title" "")
    else t
  pyStrip (pyTake t 120)

/-- Model of _build_selector (src/html_parser.py).  Each branch mirrors
the source: the id and name branches require a non-blank stripped value,
the data-testid and href branches only require a truthy raw value.  In
the source the href branch is an inner conditional whose failure falls
through to the text fallback; here that is the equivalent flat else-if. -/
def buildSelector (e : HtmlNode) : Option Selector :=
  let idv := getAttrD e "id" ""
  if idv != "" && pyStrip idv != "" then
    some (make_selector "attributeValueSelector" "id" (pyStrip idv) false)
  else
    let tid := getAttrD e "data-testid" ""
    if tid != "" then
      some (make_selector "attributeValueSelector" "data-testid" (pyStrip tid) false)
    else
      let nm := getAttrD e "name" ""
      if nm != "" && pyStrip nm != "" then
        some (make_selector "attributeValueSelector" "name" (pyStrip nm) false)
      else if e.nameOf = "a" && (getAttrD e "href" "" != ""
          && !pyStartsWith (getAttrD e "href" "") "javascript:") then
        some (make_selector "attributeValueSelector" "href" (pyStrip (getAttrD e "href" "")) false)
      else
        let t := visibleText e
        if t != "" then
          some (make_selector "tagContainsSelector" "text" (pyTake t 80) false)
        else none

/-! ## Candidates (src/html_parser.py) -/

/-- One extracted candidate before id assignment (_extract_candidate does
not set the id; ids are assigned by parse_html after sorting).  The
internal _key and _priority entries of the Python dict are functions of
the other fields (dedupKey and priOf below) and are popped before the
list is returned, so they are not stored. -/
structure CandidateCore where
  tag : String
  text : String
  elemType : String
  selector : Selector
  attributes : List (String × String)
  context : String
  options : List String
deriving DecidableEq

/-- The dedup key f"{tag}:{selector value}:{text[:30]}". -/
def dedupKey (c : CandidateCore) : String :=
  c.tag ++ ":" ++ c.selector.value ++ ":" ++ pyTake c.text 30

/-- Model of _candidate_priority_value (src/html_parser.py). -/
def candidatePriorityValue (tag elemType : String) : Nat :=
  if tag = "input" && ["text", "email", "password", "search", "tel", "url"].contains elemType then 10
  else if tag = "textarea" then 11
  else if tag = "select" then 12
  else if tag = "input" && elemType = "submit" then 15
  else if tag = "button" then 20
  else if tag = "input" && (elemType = "checkbox" || elemType = "radio") then 25
  else if tag = "a" then 30
  else 40

/-- The sort key of a candidate (the stored _priority equals this value
because the stored type field is str(elem_type) = elem_type). -/
def priOf (c : CandidateCore) : Nat := candidatePriorityValue c.tag c.elemType

/-- Model of _get_parent_context: walk the ancestor chain nearest first;
the [document] root never matches a landmark name or role. -/
def ctxLoop : List HtmlNode → String
  | [] => ""
  | a :: rest =>
      if ["form", "nav", "header", "footer", "main", "aside"].contains a.nameOf then a.nameOf
      else if ["navigation", "banner", "main", "form"].contains (getAttrD a "role" "") then
        getAttrD a "role" ""
      else ctxLoop rest

def parentContext (anc : List HtmlNode) : String :=
  match anc with
  | [] => ""
  | _ => ctxLoop anc

/-- Model of the while loop of _get_associated_label: climb from the
immediate parent to the topmost ancestor below the [document] root (when
the immediate parent is the document itself, the document is returned). -/
def climbRoot : List HtmlNode → Option HtmlNode
  | [] => none
  | [r] => some r
  | r :: p :: rest => if p.nameOf = "[document]" then some r else climbRoot (p :: rest)

/-- Model of _get_associated_label (src/html_parser.py).  A found
label[for=id] is used only when it is truthy (bs4 Tag truthiness is
non-emptiness of contents); an ancestor label is used when its text
differs from the element text. -/
def associatedLabel (e : HtmlNode) (anc : List HtmlNode) : String :=
  let elemId := getAttrD e "id" ""
  let fromFor : Option String :=
    if elemId != "" && !anc.isEmpty then
      match climbRoot anc with
      | some root =>
        match (strictDesc root).find?
            (fun n => n.nameOf == "label" && getAttr n "for" == some elemId) with
        | some lbl =>
            if !lbl.childrenOf.isEmpty then some (pyTake (getTextStrip lbl) 60) else none
        | none => none
      | none => none
    else none
  match fromFor with
  | some s => s
  | none =>
    match anc.find? (fun a => a.nameOf == "label") with
    | some pl =>
        let lt := pyTake (getTextStrip pl) 60
        let et := getTextStrip e
        if lt != et then lt else ""
    | none => ""

/-- Model of _extract_candidate (src/html_parser.py).  The options field
is the empty list when the Python dict would have no options entry. -/
def extractCandidate (e : HtmlNode) (anc : List HtmlNode) : Option CandidateCore :=
  let tag := e.nameOf
  if tag = "" then none
  else
    let text0 := visibleText e
    let elemType := getAttrD e "type" ""
    if tag = "input" && elemType = "hidden" then none
    else if (getAttr e "disabled").isSome then none
    else if tag = "option" then none
    else
      match buildSelector e with
      | none => none
      | some sel =>
        let attributes := ["name", "placeholder", "href", "value", "aria-label", "title"].filterMap
          (fun a =>
            match getAttr e a with
            | some v => if v != "" then some (a, pyTake v 100) else none
            | none => none)
        let context := parentContext anc
        let options :=
          if tag = "select" then
            (((strictDesc e).filter (fun n => n.nameOf == "option")).take 10).filterMap
              (fun o =>
                let t := getTextStrip o
                if t != "" then some (pyTake t 40) else none)
          else []
        let labelText := associatedLabel e anc
        let text := if labelText != "" && text0 = "" then labelText else text0
        some { tag := tag, text := text, elemType := elemType, selector := sel,
               attributes := attributes, context := context, options := options }

/-! ## The extraction pipeline (parse_html, src/html_parser.py) -/

/-- Maximum candidates to send to the LLM (src/html_parser.py line 20). -/
def MAX_CANDIDATES : Nat := 40

/-- The three incremental dedup loops of parse_html share one seen set
and one output list; over the concatenated passes they are this single
first-wins filter. -/
def dedupByKey (seen : List String) : List CandidateCore → List CandidateCore
  | [] => []
  | c :: cs =>
      if dedupKey c ∈ seen then dedupByKey seen cs
      else c :: dedupByKey (dedupKey c :: seen) cs

/-- Stable insertion before the first element of greater or equal
priority.  A stable sort by key is extensionally unique, so this
insertion sort is the Python list.sort with key=_candidate_priority. -/
def insertStable (x : CandidateCore) : List CandidateCore → List CandidateCore
  | [] => [x]
  | y :: ys => if priOf y < priOf x then y :: insertStable x ys else x :: y :: ys

def isortStable : List CandidateCore → List CandidateCore
  | [] => []
  | x :: xs => insertStable x (isortStable xs)

/-- All elements of the cleaned soup, with ancestor chains ending in the
synthetic [document] root (what soup.find_all iterates over). -/
def soupElems (roots : List HtmlNode) : List (HtmlNode × List HtmlNode) :=
  let cleaned := killList ["script", "style", "noscript", "svg", "path"] roots
  descAncL [HtmlNode.elem "[document]" [] cleaned] cleaned

/-- The three harvest passes of parse_html in order: explicit interactive
tags, elements with a clickable ARIA role, elements with an onclick
attribute; each element through _extract_candidate. -/
def harvest (roots : List HtmlNode) : List CandidateCore :=
  let all := soupElems roots
  let p1 := all.filter (fun p =>
    ["a", "button", "input", "textarea", "select", "option"].contains p.1.nameOf)
  let p2 := all.filter (fun p =>
    (getAttr p.1 "role").isSome &&
      ["button", "link", "tab", "menuitem", "checkbox", "radio", "switch"].contains
        (pyLower (getAttrD p.1 "role" "")))
  let p3 := all.filter (fun p => (getAttr p.1 "onclick").isSome)
  (p1 ++ p2 ++ p3).filterMap (fun p => extractCandidate p.1 p.2)

def dedupedCands (roots : List HtmlNode) : List CandidateCore :=
  dedupByKey [] (harvest roots)

/-- Model of parse_html (src/html_parser.py) from the soup tree onward:
harvest, dedup, stable sort by priority, truncate to MAX_CANDIDATES,
assign sequential ids.  The empty or blank raw-HTML guard returns the
empty list and satisfies every property below trivially. -/
def parse_html (roots : List HtmlNode) : List (Nat × CandidateCore) :=
  ((isortStable (dedupedCands roots)).take MAX_CANDIDATES).enum

/-! ## Untyped decision values (the JSON data recovered from the LLM) -/

inductive JValue where
  | null
  | bool (b : Bool)
  | int (n : Int)
  | float (q : ℚ)
  | str (s : String)
  | arr (xs : List JValue)
  | obj (kvs : List (String × JValue))

/-- Python truthiness of a decoded JSON value. -/
def truthy : JValue → Bool
  | .null => false
  | .bool b => b
  | .int n => n != 0
  | .float q => q != 0
  | .str s => !s.data.isEmpty
  | .arr xs => !xs.isEmpty
  | .obj kvs => !kvs.isEmpty

mutual
/-- Model of Python repr on decoded JSON values (string escaping inside
the repr and the float format are simplified; no action alias is a
substring of the bracket or quote punctuation this produces, so action
resolution is unaffected for container reprs). -/
def pyRepr : JValue → String
  | .null => "None"
  | .bool b => if b then "True" else "False"
  | .int n => toString n
  | .float q => toString q
  | .str s => "'" ++ s ++ "'"
  | .arr xs => "[" ++ pyReprList xs ++ "]"
  | .obj kvs => "\x7b" ++ pyReprPairs kvs ++ "\x7d"

def pyReprList : List JValue → String
  | [] => ""
  | [x] => pyRepr x
  | x :: xs => pyRepr x ++ ", " ++ pyReprList xs

def pyReprPairs : List (String × JValue) → String
  | [] => ""
  | [(k, v)] => "'" ++ k ++ "': " ++ pyRepr v
  | (k, v) :: kvs => "'" ++ k ++ "': " ++ pyRepr v ++ ", " ++ pyReprPairs kvs
end

/-- Model of Python str(x): the string itself for strings, repr
otherwise. -/
def pyStr : JValue → String
  | .str s => s
  | v => pyRepr v

/-- Model of x.lower(): AttributeError unless x is a string. -/
def pyLowerJ : JValue → Except String String
  | .str s => .ok (pyLower s)
  | _ => .error "AttributeError"

/-- Model of Python float(str): optional sign, then digits with an
optional fraction and exponent, or a fraction starting with the point;
whitespace around the literal ignored.  inf and nan are outside the
rational model and parse as failures. -/
def pyParseFloat (s : String) : Option ℚ :=
  let cs := ((s.data.dropWhile pyWs).reverse.dropWhile pyWs).reverse
  let (sign, cs) : ℚ × List Char :=
    match cs with
    | '-' :: rest => (-1, rest)
    | '+' :: rest => (1, rest)
    | rest => (1, rest)
  let intDigits := cs.takeWhile Char.isDigit
  let cs := cs.dropWhile Char.isDigit
  let (fracDigits, cs) : List Char × List Char :=
    match cs with
    | '.' :: rest => (rest.takeWhile Char.isDigit, rest.dropWhile Char.isDigit)
    | rest => ([], rest)
  if intDigits.isEmpty && fracDigits.isEmpty then none
  else
    let (expOk, expVal, cs) : Bool × Int × List Char :=
      match cs with
      | 'e' :: rest | 'E' :: rest =>
        let (esign, rest) : Int × List Char :=
          match rest with
          | '-' :: r => (-1, r)
          | '+' :: r => (1, r)
          | r => (1, r)
        let eds := rest.takeWhile Char.isDigit
        if eds.isEmpty then (false, 0, rest)
        else (true, esign * Int.ofNat (eds.foldl (fun a c => a * 10 + (c.toNat - 48)) 0),
              rest.dropWhile Char.isDigit)
      | rest => (true, 0, rest)
    if !expOk || !cs.isEmpty then none
    else
      let mant : Nat := (intDigits ++ fracDigits).foldl (fun a c => a * 10 + (c.toNat - 48)) 0
      some (sign * (mant : ℚ) * (10 : ℚ) ^ (expVal - fracDigits.length))

/-- Model of Python float(x) on arbitrary decoded values, with the
exception class it would raise. -/
def pyFloat : JValue → Except String ℚ
  | .int n => .ok n
  | .float q => .ok q
  | .bool b => .ok (if b then 1 else 0)
  | .str s =>
      match pyParseFloat s with
      | some q => .ok q
      | none => .error "ValueError"
  | _ => .error "TypeError"

/-! ## Actions and the normalizer (src/actions.py) -/

/-- The closed set of IWA action shapes built by src/actions.py.  The
selector payloads are untyped dicts in Python (a candidate selector
serialized by make_selector, or the raw inline dict the LLM supplied for
click), so they are carried as JValue. -/
inductive IwaAction where
  | click (selector : JValue)
  | typeA (selector : JValue) (text : String)
  | selectOption (selector : JValue) (text : String)
  | navigate (url : JValue)
  | scroll (down up left right : Bool)
  | wait (time_seconds : ℚ)
  | idle
  | submit (selector : JValue)
  | hover (selector : JValue)

/-- Model of scroll_action(down=d): mutually exclusive up and down,
left and right always false. -/
def scroll_action (down : Bool) : IwaAction := .scroll down (!down) false false

/-- The wire form of a typed Selector, as click_action and friends
receive it from a candidate dict. -/
def selToJ (s : Selector) : JValue :=
  .obj [("type", .str s.selType), ("attribute", .str s.attrName),
        ("value", .str s.value), ("case_sensitive", .bool s.case_sensitive)]

/-- Model of _normalize_action_name (src/actions.py). -/
def normalizeActionName (raw : String) : String :=
  let name := pyStrip (pyLower raw)
  let name := if pyEndsWith name "action" then pyDropRight name 6 else name
  pyStrip name

/-- The _ACTION_ALIASES table in its Python insertion order (the order
is part of the contract for the partial-match fallback). -/
def actionAliases : List (String × String) :=
  [("click", "click"), ("type", "type"), ("input", "type"), ("fill", "type"),
   ("select", "select"), ("selectdropdown", "select"),
   ("selectdropdownoption", "select"), ("dropdown", "select"),
   ("navigate", "navigate"), ("goto", "navigate"), ("go", "navigate"),
   ("scroll", "scroll"), ("scrolldown", "scroll_down"), ("scrollup", "scroll_up"),
   ("wait", "wait"), ("sleep", "wait"), ("pause", "wait"),
   ("done", "idle"), ("complete", "idle"), ("finish", "idle"), ("idle", "idle"),
   ("submit", "submit"), ("hover", "hover")]

/-- The intent-resolution head of build_action_from_llm: read the action
field (or the type field), reject a falsy value, normalize, look up the
alias table exactly and then by the ordered substring fallback.  Both
Python early returns (falsy raw action, unknown action after the logged
warning) yield none. -/
def resolveIntent (d : List (String × JValue)) : Option String :=
  let rawAction := (List.lookup "action" d).getD ((List.lookup "type" d).getD (.str ""))
  if !truthy rawAction then none
  else
    let normalized := normalizeActionName (pyStr rawAction)
    match List.lookup normalized actionAliases with
    | some a => some a
    | none =>
        (actionAliases.find? (fun p =>
          strContains normalized p.1 || strContains p.1 normalized)).map Prod.snd

/-- The candidate-id binding of build_action_from_llm: a native int, a
bool (a Python int), or a numeric string whose failed conversion is
swallowed; valid only inside [0, candidate count), resolving to that
candidate selector. -/
def resolveCandidateSelector (d : List (String × JValue)) (cands : List CandidateCore) :
    Option Selector :=
  let cid : Option Int :=
    match List.lookup "candidate_id" d with
    | some (.str s) => pyIntOfString s
    | some (.int n) => some n
    | some (.bool b) => some (if b then 1 else 0)
    | _ => none
  match cid with
  | some n => if 0 ≤ n then (cands.get? n.toNat).map (fun c => c.selector) else none
  | none => none

/-- Model of build_action_from_llm (src/actions.py).  The result is in
Except because the scroll branch calls .lower() on the direction field
before testing the intent, which raises AttributeError on a non-string;
every other branch is total.  ok none is the Python return None. -/
def buildActionFromLlm (d : List (String × JValue)) (cands : List CandidateCore) :
    Except String (Option IwaAction) :=
  match resolveIntent d with
  | none => .ok none
  | some action =>
    let selector := resolveCandidateSelector d cands
    if action = "click" then
      match selector with
      | some s => .ok (some (.click (selToJ s)))
      | none =>
          match List.lookup "selector" d with
          | some (.obj kvs) => .ok (some (.click (.obj kvs)))
          | _ => .ok none
    else if action = "type" then
      match selector with
      | some s =>
          .ok (some (.typeA (selToJ s)
            (pyStr ((List.lookup "text" d).getD ((List.lookup "value" d).getD (.str ""))))))
      | none => .ok none
    else if action = "select" then
      let text := (List.lookup "text" d).getD
        ((List.lookup "option" d).getD ((List.lookup "value" d).getD (.str "")))
      match selector with
      | some s => if truthy text then .ok (some (.selectOption (selToJ s) (pyStr text)))
                  else .ok none
      | none => .ok none
    else if action = "navigate" then
      let url := (List.lookup "url" d).getD (.str "")
      if truthy url then .ok (some (.navigate url)) else .ok none
    else if action = "scroll" ∨ action = "scroll_down" ∨ action = "scroll_up" then
      match pyLowerJ ((List.lookup "direction" d).getD (.str "down")) with
      | .error e => .error e
      | .ok dir =>
          if action = "scroll_up" || dir = "up" then .ok (some (scroll_action false))
          else .ok (some (scroll_action true))
    else if action = "wait" then
      let raw := (List.lookup "seconds" d).getD
        ((List.lookup "time" d).getD ((List.lookup "time_seconds" d).getD (.float 1)))
      let seconds : ℚ := match pyFloat raw with | .ok q => q | .error _ => 1
      .ok (some (.wait seconds))
    else if action = "idle" then .ok (some .idle)
    else if action = "submit" then
      match selector with
      | some s => .ok (some (.submit (selToJ s)))
      | none => .ok none
    else if action = "hover" then
      match selector with
      | some s => .ok (some (.hover (selToJ s)))
      | none => .ok none
    else .ok none

/-! ## A model of json.loads (stdlib, external to the repository) -/

/-- JSON whitespace. -/
def jWs (c : Char) : Bool := c = ' ' || c = '\t' || c = '\n' || c = '\r'

def jskipWs (cs : List Char) : List Char := cs.dropWhile jWs

/-- JSON string body after the opening quote; common escapes supported,
the \u escape is outside the model. -/
def jparseStrAux : List Char → List Char → Option (String × List Char)
  | [], _ => none
  | '"' :: r, acc => some (⟨acc.reverse⟩, r)
  | '\\' :: e :: r, acc =>
      match e with
      | '"' => jparseStrAux r ('"' :: acc)
      | '\\' => jparseStrAux r ('\\' :: acc)
      | '/' => jparseStrAux r ('/' :: acc)
      | 'n' => jparseStrAux r ('\n' :: acc)
      | 't' => jparseStrAux r ('\t' :: acc)
      | 'r' => jparseStrAux r ('\r' :: acc)
      | 'b' => jparseStrAux r ('\x08' :: acc)
      | 'f' => jparseStrAux r ('\x0c' :: acc)
      | _ => none
  | c :: r, acc => jparseStrAux r (c :: acc)

def jparseStr (cs : List Char) : Option (String × List Char) := jparseStrAux cs []

/-- JSON number: -?(0|[1-9][0-9]*)(.[0-9]+)?([eE][+-]?[0-9]+)?, an int
value when there is neither fraction nor exponent. -/
def jparseNum (cs : List Char) : Option (JValue × List Char) :=
  let (neg, cs) : Bool × List Char :=
    match cs with
    | '-' :: rest => (true, rest)
    | rest => (false, rest)
  let intDigits := cs.takeWhile Char.isDigit
  let cs2 := cs.dropWhile Char.isDigit
  if intDigits.isEmpty then none
  else if intDigits.length ≥ 2 && intDigits.head? = some '0' then none
  else
    let (fracOk, fracDigits, cs3) : Bool × List Char × List Char :=
      match cs2 with
      | '.' :: rest =>
          let ds := rest.takeWhile Char.isDigit
          (!ds.isEmpty, ds, rest.dropWhile Char.isDigit)
      | rest => (true, [], rest)
    if !fracOk then none
    else
      let (expOk, hasExp, expVal, cs4) : Bool × Bool × Int × List Char :=
        match cs3 with
        | 'e' :: rest | 'E' :: rest =>
          let (esign, rest2) : Int × List Char :=
            match rest with
            | '-' :: r => (-1, r)
            | '+' :: r => (1, r)
            | r => (1, r)
          let eds := rest2.takeWhile Char.isDigit
          if eds.isEmpty then (false, true, 0, rest2)
          else (true, true, esign * Int.ofNat (eds.foldl (fun a c => a * 10 + (c.toNat - 48)) 0),
                rest2.dropWhile Char.isDigit)
        | rest => (true, false, 0, rest)
      if !expOk then none
      else
        let intVal : Int :=
          (if neg then -1 else 1) *
            Int.ofNat (intDigits.foldl (fun a c => a * 10 + (c.toNat - 48)) 0)
        if fracDigits.isEmpty && !hasExp then some (.int intVal, cs4)
        else
          let mant : Int :=
            (if neg then -1 else 1) *
              Int.ofNat ((intDigits ++ fracDigits).foldl (fun a c => a * 10 + (c.toNat - 48)) 0)
          some (.float ((mant : ℚ) * (10 : ℚ) ^ (expVal - fracDigits.length)), cs4)

mutual
/-- Fueled recursive descent for a JSON value; the fuel is at least the
input length at the top call, so it never runs out on real input. -/
def jparseV : Nat → List Char → Option (JValue × List Char)
  | 0, _ => none
  | fuel + 1, cs0 =>
    let cs := jskipWs cs0
    match cs with
    | '\x7b' :: r =>
        (match jskipWs r with
         | '\x7d' :: r2 => some (.obj [], r2)
         | _ => jparseMembers fuel r [])
    | '[' :: r =>
        (match jskipWs r with
         | ']' :: r2 => some (.arr [], r2)
         | _ => jparseItems fuel r [])
    | '"' :: r => (jparseStr r).map (fun p => (.str p.1, p.2))
    | 't' :: r => if r.take 3 = ['r', 'u', 'e'] then some (.bool true, r.drop 3) else none
    | 'f' :: r => if r.take 4 = ['a', 'l', 's', 'e'] then some (.bool false, r.drop 4) else none
    | 'n' :: r => if r.take 3 = ['u', 'l', 'l'] then some (.null, r.drop 3) else none
    | _ => jparseNum cs

def jparseMembers : Nat → List Char → List (String × JValue) →
    Option (JValue × List Char)
  | 0, _, _ => none
  | fuel + 1, cs, acc =>
    match jskipWs cs with
    | '"' :: r =>
      (match jparseStr r with
       | none => none
       | some (k, r2) =>
         match jskipWs r2 with
         | ':' :: r3 =>
           (match jparseV fuel r3 with
            | none => none
            | some (v, r4) =>
              match jskipWs r4 with
              | ',' :: r5 => jparseMembers fuel r5 (acc ++ [(k, v)])
              | '\x7d' :: r5 => some (.obj (acc ++ [(k, v)]), r5)
              | _ => none)
         | _ => none)
    | _ => none

def jparseItems : Nat → List Char → List JValue → Option (JValue × List Char)
  | 0, _, _ => none
  | fuel + 1, cs, acc =>
    match jparseV fuel cs with
    | none => none
    | some (v, r) =>
      match jskipWs r with
      | ',' :: r2 => jparseItems fuel r2 (acc ++ [v])
      | ']' :: r2 => some (.arr (acc ++ [v]), r2)
      | _ => none
end

theorem snd_mem_enumFrom {α : Type} :
    ∀ (l : List α) (n : Nat) (p : Nat × α), p ∈ l.enumFrom n → p.2 ∈ l := by
  intro l
  induction l with
  | nil => intro n p h; simp [List.enumFrom] at h
  | cons x xs ih =>
    intro n p h
    simp only [List.enumFrom] at h
    rcases List.mem_cons.mp h with h | h
    · subst h; exact List.mem_cons_self _ _
    · exact List.mem_cons_of_mem _ (ih (n + 1) p h)

theorem pairwise_enumFrom {α : Type} (R : α → α → Prop) :
    ∀ (l : List α) (n : Nat), l.Pairwise R →
      (l.enumFrom n).Pairwise (fun a b => R a.2 b.2) := by
  intro l
  induction l with
  | nil => intro n _; simp [List.enumFrom]
  | cons x xs ih =>
    intro n h
    rcases List.pairwise_cons.mp h with ⟨hx, hxs⟩
    simp only [List.enumFrom]
    refine List.pairwise_cons.mpr ⟨?_, ih (n + 1) hxs⟩
    intro p hp
    exact hx p.2 (snd_mem_enumFrom xs (n + 1) p hp)

/-! ## Dedup lemmas -/

theorem dedupByKey_pairwise_and_seen :
    ∀ (seen : List String) (l : List CandidateCore),
      ((dedupByKey seen l).Pairwise fun a b => dedupKey a ≠ dedupKey b) ∧
        ∀ x ∈ dedupByKey seen l, dedupKey x ∉ seen := by
  intro seen l
  induction l generalizing seen with
  | nil => simp [dedupByKey]
  | cons c cs ih =>
    by_cases hk : dedupKey c ∈ seen
    · simpa [dedupByKey, hk] using ih seen
    · have ihc := ih (dedupKey c :: seen)
      refine ⟨?_, ?_⟩
      · simp only [dedupByKey, hk, if_false]
        refine List.pairwise_cons.mpr ⟨?_, ihc.1⟩
        intro x hx
        have := ihc.2 x hx
        intro heq
        exact this (heq ▸ List.mem_cons_self _ _)
      · intro x hx
        simp only [dedupByKey, hk, if_false, List.mem_cons] at hx
        rcases hx with rfl | hx
        · exact hk
        · exact fun hmem => ihc.2 x hx (List.mem_cons_of_mem _ hmem)

theorem dedupByKey_sublist :
    ∀ (seen : List String) (l : List CandidateCore),
      List.Sublist (dedupByKey seen l) l := by
  intro seen l
  induction l generalizing seen with
  | nil => simp [dedupByKey]
  | cons c cs ih =>
    by_cases hk : dedupKey c ∈ seen
    · simpa [dedupByKey, hk] using List.Sublist.cons c (ih seen)
    · simpa [dedupByKey, hk] using List.Sublist.cons₂ c (ih (dedupKey c :: seen))

theorem mem_dedupByKey :
    ∀ (seen : List String) (l : List CandidateCore) (x : CandidateCore),
      x ∈ dedupByKey seen l ↔
        ∃ p q, l = p ++ x :: q ∧ dedupKey x ∉ seen ∧ ∀ y ∈ p, dedupKey y ≠ dedupKey x := by
  intro seen l
  induction l generalizing seen with
  | nil =>
    intro x
    simp only [dedupByKey, List.not_mem_nil, false_iff]
    rintro ⟨p, q, hpq, -, -⟩
    exact List.cons_ne_nil x q (List.append_eq_nil.mp hpq.symm).2
  | cons c cs ih =>
    intro x
    by_cases hk : dedupKey c ∈ seen
    · rw [dedupByKey, if_pos hk, ih seen x]
      constructor
      · rintro ⟨p, q, rfl, hns, hp⟩
        refine ⟨c :: p, q, rfl, hns, ?_⟩
        intro y hy
        rcases List.mem_cons.mp hy with rfl | hy
        · exact fun heq => hns (heq ▸ hk)
        · exact hp y hy
      · rintro ⟨p, q, hpq, hns, hp⟩
        cases p with
        | nil =>
          injection hpq with h1 _
          exact absurd (h1 ▸ hk) hns
        | cons p0 ps =>
          injection hpq with h1 h2
          exact ⟨ps, q, h2, hns, fun y hy => hp y (List.mem_cons_of_mem _ hy)⟩
    · rw [dedupByKey, if_neg hk]
      constructor
      · intro hx
        rcases List.mem_cons.mp hx with rfl | hx
        · exact ⟨[], cs, rfl, hk, by simp⟩
        · rcases (ih (dedupKey c :: seen) x).mp hx with ⟨p, q, rfl, hns, hp⟩
          have hxc : dedupKey x ≠ dedupKey c := fun h => hns (h ▸ List.mem_cons_self _ _)
          refine ⟨c :: p, q, rfl, fun h => hns (List.mem_cons_of_mem _ h), ?_⟩
          intro y hy
          rcases List.mem_cons.mp hy with rfl | hy
          · exact hxc.symm
          · exact hp y hy
      · rintro ⟨p, q, hpq, hns, hp⟩
        cases p with
        | nil =>
          injection hpq with h1 h2
          exact h1 ▸ List.mem_cons_self _ _
        | cons p0 ps =>
          injection hpq with h1 h2
          subst h1
          refine List.mem_cons_of_mem _ ((ih (dedupKey c :: seen) x).mpr ⟨ps, q, h2, ?_, ?_⟩)
          · intro hmem
            rcases List.mem_cons.mp hmem with heq | hmem2
            · exact hp c (List.mem_cons_self _ _) heq.symm
            · exact hns hmem2
          · exact fun y hy => hp y (List.mem_cons_of_mem _ hy)

/-! ## Stable sort lemmas -/

theorem insertStable_perm (x : CandidateCore) :
    ∀ l : List CandidateCore, (insertStable x l).Perm (x :: l) := by
  intro l
  induction l with
  | nil => simp [insertStable]
  | cons y ys ih =>
    by_cases h : priOf y < priOf x
    · simp only [insertStable, if_pos h]
      exact (ih.cons y).trans (List.Perm.swap x y ys)
    · simp [insertStable, if_neg h]

theorem isortStable_perm : ∀ l : List CandidateCore, (isortStable l).Perm l := by
  intro l
  induction l with
  | nil => simp [isortStable]
  | cons x xs ih =>
    exact (insertStable_perm x (isortStable xs)).trans (ih.cons x)

theorem mem_insertStable {x z : CandidateCore} :
    ∀ {l : List CandidateCore}, z ∈ insertStable x l → z = x ∨ z ∈ l := by
  intro l h
  have := (insertStable_perm x l).mem_iff.mp h
  simpa using this

theorem insertStable_sorted (x : CandidateCore) :
    ∀ l : List CandidateCore, (l.Pairwise fun a b => priOf a ≤ priOf b) →
      (insertStable x l).Pairwise fun a b => priOf a ≤ priOf b := by
  intro l
  induction l with
  | nil => intro _; simp [insertStable]
  | cons y ys ih =>
    intro h
    rcases List.pairwise_cons.mp h with ⟨hy, hys⟩
    by_cases hc : priOf y < priOf x
    · simp only [insertStable, if_pos hc]
      refine List.pairwise_cons.mpr ⟨?_, ih hys⟩
      intro z hz
      rcases mem_insertStable hz with rfl | hz
      · exact le_of_lt hc
      · exact hy z hz
    · simp only [insertStable, if_neg hc]
      refine List.pairwise_cons.mpr ⟨?_, h⟩
      intro z hz
      rcases List.mem_cons.mp hz with rfl | hz
      · exact le_of_not_lt hc
      · exact le_trans (le_of_not_lt hc) (hy z hz)

theorem isortStable_sorted :
    ∀ l : List CandidateCore, (isortStable l).Pairwise fun a b => priOf a ≤ priOf b := by
  intro l
  induction l with
  | nil => simp [isortStable]
  | cons x xs ih => exact insertStable_sorted x (isortStable xs) ih

theorem filter_insertStable (x : CandidateCore) (p : Nat) :
    ∀ l : List CandidateCore,
      (insertStable x l).filter (fun c => priOf c == p) =
        (x :: l).filter (fun c => priOf c == p) := by
  intro l
  induction l with
  | nil => simp [insertStable]
  | cons y ys ih =>
    by_cases hc : priOf y < priOf x
    · simp only [insertStable, if_pos hc]
      by_cases hx : priOf x = p
      · have hy : ¬ priOf y = p := by omega
        simp [List.filter_cons, hx, hy, ih]
      · by_cases hy : priOf y = p
        · simp [List.filter_cons, hx, hy, ih]
        · simp [List.filter_cons, hx, hy, ih]
    · simp [insertStable, if_neg hc]

theorem filter_isortStable (p : Nat) :
    ∀ l : List CandidateCore,
      (isortStable l).filter (fun c => priOf c == p) = l.filter (fun c => priOf c == p) := by
  intro l
  induction l with
  | nil => simp [isortStable]
  | cons x xs ih =>
    calc (insertStable x (isortStable xs)).filter (fun c => priOf c == p)
        = (x :: isortStable xs).filter (fun c => priOf c == p) :=
          filter_insertStable x p (isortStable xs)
      _ = (x :: xs).filter (fun c => priOf c == p) := by
          by_cases hx : priOf x = p
          · simp [List.filter_cons, hx, ih]
          · simp [List.filter_cons, hx, ih]

/-! ## Selector and candidate provenance lemmas -/

theorem buildSelector_kinds (e : HtmlNode) (s : Selector) (h : buildSelector e = some s) :
    s.case_sensitive = false ∧
      (s.selType = "attributeValueSelector" ∨
        (s.selType = "tagContainsSelector" ∧ s.attrName = "text")) := by
  simp only [buildSelector] at h
  split_ifs at h
  all_goals
    first
    | (injection h with h; subst h; simp [make_selector])
    | simp at h

theorem lookup_mem {k v : String} :
    ∀ {l : List (String × String)}, l.lookup k = some v → (k, v) ∈ l := by
  intro l
  induction l with
  | nil => intro h; simp [List.lookup] at h
  | cons p ps ih =>
    intro h
    rw [List.lookup] at h
    cases hk : k == p.1 with
    | false =>
      simp only [hk] at h
      exact List.mem_cons_of_mem _ (ih h)
    | true =>
      simp only [hk] at h
      injection h with h
      subst h
      have hkk : k = p.1 := beq_iff_eq.mp hk
      rw [hkk]
      simp

theorem pyTake_ne_empty {s : String} (h : s ≠ "") (n : Nat) (hn : n ≠ 0) :
    pyTake s n ≠ "" := by
  cases s with
  | mk data =>
    cases data with
    | nil => exact absurd rfl h
    | cons c cs =>
      cases n with
      | zero => exact absurd rfl hn
      | succ m =>
        intro he
        have : (c :: cs).take (m + 1) = [] := congrArg String.data he
        simp at this

/-- The value a getAttrD default-empty read returns non-empty must come
from a stored attribute. -/
theorem getAttrD_mem {e : HtmlNode} {k : String} (h : getAttrD e k "" ≠ "") :
    (k, getAttrD e k "") ∈ e.attrsOf := by
  unfold getAttrD getAttr at h ⊢
  cases hl : List.lookup k e.attrsOf with
  | none => simp [hl] at h
  | some v => simpa using lookup_mem hl

theorem extractCandidate_selector (e : HtmlNode) (anc : List HtmlNode)
    (c : CandidateCore) (h : extractCandidate e anc = some c) :
    buildSelector e = some c.selector := by
  simp only [extractCandidate] at h
  split_ifs at h
  all_goals revert h
  all_goals split
  all_goals intro h
  all_goals
    first
    | exact Option.noConfusion h
    | (rename_i sel hsel; injection h with h; subst h; exact hsel)

theorem mem_harvest {roots : List HtmlNode} {c : CandidateCore}
    (h : c ∈ harvest roots) :
    ∃ e anc, extractCandidate e anc = some c := by
  simp only [harvest, List.mem_filterMap] at h
  rcases h with ⟨p, -, hp⟩
  exact ⟨p.1, p.2, hp⟩

/-- Every candidate of the final parse_html output came through
extractCandidate on some element, hence through buildSelector. -/
theorem parse_html_provenance {roots : List HtmlNode} {x : Nat × CandidateCore}
    (h : x ∈ parse_html roots) :
    ∃ e anc, extractCandidate e anc = some x.2 := by
  have h2 : x.2 ∈ (isortStable (dedupedCands roots)).take MAX_CANDIDATES :=
    snd_mem_enumFrom _ 0 x h
  have h3 : x.2 ∈ isortStable (dedupedCands roots) := List.mem_of_mem_take h2
  have h4 : x.2 ∈ dedupedCands roots := (isortStable_perm _).mem_iff.mp h3
  have h5 : x.2 ∈ harvest roots := (dedupByKey_sublist [] _).subset h4
  exact mem_harvest h5

/-! ## Claim theorems: extraction invariants -/

/-- C1: for every HTML input (every soup tree), the candidate list
returned by parse_html has length at most the configured maximum
MAX_CANDIDATES = 40, and the id fields are exactly the contiguous
integers 0..length-1 in final sorted order. -/
theorem c1_extract_bounded_ids (roots : List HtmlNode) :
    (parse_html roots).length ≤ MAX_CANDIDATES ∧ MAX_CANDIDATES = 40 ∧
      (parse_html roots).map Prod.fst = List.range (parse_html roots).length := by
  refine ⟨?_, rfl, ?_⟩
  · unfold parse_html
    rw [List.enum_length]
    exact List.length_take_le _ _
  · unfold parse_html
    rw [List.enum_length, List.enum_map_fst]

/-- C2: no two candidates of the parse_html output share a dedup key,
the key being the triple (tag, selector value, first 30 characters of
visible text); and membership in the deduplicated list is exactly being
the first harvest occurrence of a key (first occurrence wins, later
duplicates dropped). -/
theorem c2_dedup_key_unique (roots : List HtmlNode) :
    ((parse_html roots).Pairwise fun a b =>
        (a.2.tag, a.2.selector.value, pyTake a.2.text 30) ≠
          (b.2.tag, b.2.selector.value, pyTake b.2.text 30)) ∧
      ∀ x, x ∈ dedupedCands roots ↔
        ∃ p q, harvest roots = p ++ x :: q ∧ ∀ y ∈ p, dedupKey y ≠ dedupKey x := by
  constructor
  · have h1 : (dedupedCands roots).Pairwise (fun a b => dedupKey a ≠ dedupKey b) :=
      (dedupByKey_pairwise_and_seen [] (harvest roots)).1
    have h2 : (isortStable (dedupedCands roots)).Pairwise
        (fun a b => dedupKey a ≠ dedupKey b) :=
      ((isortStable_perm _).pairwise_iff (fun h => Ne.symm h)).mpr h1
    have h3 : ((isortStable (dedupedCands roots)).take MAX_CANDIDATES).Pairwise
        (fun a b => dedupKey a ≠ dedupKey b) :=
      h2.sublist (List.take_sublist _ _)
    have h4 := pairwise_enumFrom (fun a b : CandidateCore => dedupKey a ≠ dedupKey b) _ 0 h3
    refine h4.imp ?_
    intro a b hk ht
    rw [Prod.mk.injEq, Prod.mk.injEq] at ht
    obtain ⟨e1, e2, e3⟩ := ht
    exact hk (by unfold dedupKey; rw [e1, e2, e3])
  · intro x
    have h := mem_dedupByKey [] (harvest roots) x
    simpa [dedupedCands] using h

/-- C10: every Selector attached to an extracted candidate has its
case-sensitivity flag false, and its kind is attributeValueSelector for
attribute-based selectors and tagContainsSelector (attribute text) only
for the visible-text fallback; no other kind is emitted. -/
theorem c10_selector_kinds (roots : List HtmlNode) (x : Nat × CandidateCore)
    (h : x ∈ parse_html roots) :
    x.2.selector.case_sensitive = false ∧
      (x.2.selector.selType = "attributeValueSelector" ∨
        (x.2.selector.selType = "tagContainsSelector" ∧
          x.2.selector.attrName = "text")) := by
  rcases parse_html_provenance h with ⟨e, anc, hc⟩
  exact buildSelector_kinds e _ (extractCandidate_selector e anc x.2 hc)

theorem c10_selector_kinds_witness :
    ((0, ({ tag := "button", text := "Go", elemType := "",
            selector := { selType := "attributeValueSelector", attrName := "id",
                          value := "b", case_sensitive := false },
            attributes := [], context := "", options := [] } : CandidateCore)) ∈
        parse_html [.elem "button" [("id", "b")] [.text "Go"]]) ∧
      ({ selType := "attributeValueSelector", attrName := "id",
         value := "b", case_sensitive := false } : Selector).case_sensitive = false := by
  have hm : parse_html [.elem "button" [("id", "b")] [.text "Go"]] =
      [(0, { tag := "button", text := "Go", elemType := "",
             selector := { selType := "attributeValueSelector", attrName := "id",
                           value := "b", case_sensitive := false },
             attributes := [], context := "", options := [] })] := rfl
  have hmem := hm ▸ List.mem_singleton_self _
  exact ⟨hmem, (c10_selector_kinds [.elem "button" [("id", "b")] [.text "Go"]] _ hmem).1⟩

/-- C8: the parse_html output is sorted by the fixed priority values,
ties keep harvest order (the filtered-by-priority projection of the
output is an initial segment of the same projection of the deduplicated
harvest), and the priority classes are ordered free-text inputs, then
textarea, select, submit inputs, buttons, checkbox and radio inputs,
links, and everything else last. -/
theorem c8_priority_sorted (roots : List HtmlNode) :
    ((parse_html roots).Pairwise fun a b => priOf a.2 ≤ priOf b.2) ∧
      (∀ p : Nat, ∃ t, (dedupedCands roots).filter (fun c => priOf c == p) =
        ((parse_html roots).map Prod.snd).filter (fun c => priOf c == p) ++ t) ∧
      (∀ ty ∈ ["text", "email", "password", "search", "tel", "url"],
          candidatePriorityValue "input" ty < candidatePriorityValue "textarea" "") ∧
      candidatePriorityValue "textarea" "" < candidatePriorityValue "select" "" ∧
      candidatePriorityValue "select" "" < candidatePriorityValue "input" "submit" ∧
      candidatePriorityValue "input" "submit" < candidatePriorityValue "button" "" ∧
      candidatePriorityValue "button" "" < candidatePriorityValue "input" "checkbox" ∧
      candidatePriorityValue "input" "checkbox" = candidatePriorityValue "input" "radio" ∧
      candidatePriorityValue "input" "radio" < candidatePriorityValue "a" "" ∧
      candidatePriorityValue "a" "" < candidatePriorityValue "div" "" := by
  refine ⟨?_, ?_, by decide, by decide, by decide, by decide, by decide, by decide,
    by decide, by decide⟩
  · have h2 := isortStable_sorted (dedupedCands roots)
    have h3 : ((isortStable (dedupedCands roots)).take MAX_CANDIDATES).Pairwise
        (fun a b => priOf a ≤ priOf b) :=
      h2.sublist (List.take_sublist _ _)
    exact pairwise_enumFrom (fun a b : CandidateCore => priOf a ≤ priOf b) _ 0 h3
  · intro p
    refine ⟨((isortStable (dedupedCands roots)).drop MAX_CANDIDATES).filter
      (fun c => priOf c == p), ?_⟩
    have h1 : (dedupedCands roots).filter (fun c => priOf c == p) =
        (isortStable (dedupedCands roots)).filter (fun c => priOf c == p) :=
      (filter_isortStable p _).symm
    have h2 : (parse_html roots).map Prod.snd =
        (isortStable (dedupedCands roots)).take MAX_CANDIDATES := by
      unfold parse_html
      exact List.enum_map_snd _
    rw [h1, h2, ← List.filter_append, List.take_append_drop]

/-! ## Claim theorems: selector synthesis (C4) -/

/-- C4 counterexample: an element whose data-testid is whitespace-only
passes the truthiness guard of the data-testid branch (which lacks the
stripped-non-empty check the id and name branches have), so
_build_selector returns a Selector whose value is the empty string. -/
theorem c4_counterexample :
    buildSelector (.elem "button" [("data-testid", "   ")] [.text "x"]) =
        some { selType := "attributeValueSelector", attrName := "data-testid",
               value := "", case_sensitive := false } ∧
      ({ selType := "attributeValueSelector", attrName := "data-testid",
         value := "", case_sensitive := false } : Selector).value = "" :=
  ⟨rfl, rfl⟩

/-- C4 as amended: provided no attribute of the element is a
whitespace-only non-empty string, every Selector _build_selector returns
has a non-empty value.  The id, name and text branches guarantee this
unconditionally; the data-testid and href branches trim without
re-checking, which is what the hypothesis excludes. -/
theorem c4_selector_value_nonempty (e : HtmlNode)
    (hws : ∀ pv ∈ e.attrsOf, pyStrip pv.2 = "" → pv.2 = "")
    (s : Selector) (h : buildSelector e = some s) : s.value ≠ "" := by
  have hattr : ∀ k, getAttrD e k "" ≠ "" → pyStrip (getAttrD e k "") ≠ "" := by
    intro k hk hstrip
    exact hk (hws _ (getAttrD_mem hk) hstrip)
  simp only [buildSelector] at h
  by_cases h1 : (getAttrD e "id" "" != "" && pyStrip (getAttrD e "id" "") != "") = true
  · rw [if_pos h1] at h
    injection h with h
    subst h
    rw [Bool.and_eq_true] at h1
    simpa [make_selector] using h1.2
  · rw [if_neg h1] at h
    by_cases h2 : (getAttrD e "data-testid" "" != "") = true
    · rw [if_pos h2] at h
      injection h with h
      subst h
      simp only [make_selector]
      exact hattr "data-testid" (by simpa using h2)
    · rw [if_neg h2] at h
      by_cases h3 : (getAttrD e "name" "" != "" && pyStrip (getAttrD e "name" "") != "") = true
      · rw [if_pos h3] at h
        injection h with h
        subst h
        rw [Bool.and_eq_true] at h3
        simpa [make_selector] using h3.2
      · rw [if_neg h3] at h
        by_cases h4 : (decide (e.nameOf = "a") && (getAttrD e "href" "" != ""
            && !pyStartsWith (getAttrD e "href" "") "javascript:")) = true
        · rw [if_pos h4] at h
          injection h with h
          subst h
          simp only [make_selector]
          rw [Bool.and_eq_true, Bool.and_eq_true] at h4
          exact hattr "href" (by simpa using h4.2.1)
        · rw [if_neg h4] at h
          by_cases h5 : (visibleText e != "") = true
          · rw [if_pos h5] at h
            injection h with h
            subst h
            simp only [make_selector]
            exact pyTake_ne_empty (by simpa using h5) 80 (by decide)
          · rw [if_neg h5] at h
            exact Option.noConfusion h

theorem c4_selector_value_nonempty_witness :
    (∀ pv ∈ (HtmlNode.elem "input" [("id", " user ")] []).attrsOf,
        pyStrip pv.2 = "" → pv.2 = "") ∧
      buildSelector (.elem "input" [("id", " user ")] []) =
        some (make_selector "attributeValueSelector" "id" "user" false) ∧
      (make_selector "attributeValueSelector" "id" "user" false).value ≠ "" :=
  ⟨by decide, rfl,
    c4_selector_value_nonempty (.elem "input" [("id", " user ")] []) (by decide) _ rfl⟩

/-! ## Claim theorems: the normalizer (C3, C5, C7, C9) -/

/-- C3: the normalizer is not exception-free.  At the decision with
action scroll and a non-string direction field, build_action_from_llm
evaluates direction.lower() on an int and raises AttributeError across
the core boundary instead of returning an action or none. -/
theorem c3_direction_lower_raises :
    buildActionFromLlm [("action", .str "scroll"), ("direction", .int 5)] [] =
      .error "AttributeError" := rfl

/-- C9: for every candidate list with at least one candidate, the
decision typing the empty string into candidate 0 yields a type action
on the selector of candidate 0 with empty text (field clearing), not
none. -/
theorem c9_type_empty_text (c : CandidateCore) (cs : List CandidateCore) :
    buildActionFromLlm
        [("action", .str "type"), ("candidate_id", .int 0), ("text", .str "")]
        (c :: cs) =
      .ok (some (.typeA (selToJ c.selector) "")) := rfl

/-- C5: whenever the resolved intent requires a selector (type, select,
submit, hover, or click without an inline selector dict) and the
candidate_id field is an out-of-range int, a non-numeric string, or a
numeric string out of range, the normalizer resolves no selector and
returns none, without raising on the failed conversion. -/
theorem c5_bad_candidate_id (d : List (String × JValue)) (cands : List CandidateCore)
    (a : String) (hres : resolveIntent d = some a)
    (ha : a = "click" ∨ a = "type" ∨ a = "select" ∨ a = "submit" ∨ a = "hover")
    (hcid : (∃ n : Int, List.lookup "candidate_id" d = some (.int n) ∧
               (n < 0 ∨ cands.length ≤ n.toNat)) ∨
            (∃ s, List.lookup "candidate_id" d = some (.str s) ∧
               (pyIntOfString s = none ∨
                 ∃ m, pyIntOfString s = some m ∧ (m < 0 ∨ cands.length ≤ m.toNat))))
    (hinline : a = "click" → ∀ kvs, List.lookup "selector" d ≠ some (.obj kvs)) :
    resolveCandidateSelector d cands = none ∧ buildActionFromLlm d cands = .ok none := by
  have hboundNone : ∀ n : Int, (n < 0 ∨ cands.length ≤ n.toNat) →
      (if 0 ≤ n then (cands.get? n.toNat).map (fun c => c.selector) else none) = none := by
    intro n hn
    rcases hn with hn | hn
    · rw [if_neg (by omega)]
    · by_cases h0 : 0 ≤ n
      · rw [if_pos h0, List.get?_eq_none.mpr hn, Option.map_none']
      · rw [if_neg h0]
  have hsel : resolveCandidateSelector d cands = none := by
    unfold resolveCandidateSelector
    rcases hcid with ⟨n, hl, hb⟩ | ⟨s, hl, hb⟩
    · simp only [hl]
      exact hboundNone n hb
    · simp only [hl]
      rcases hb with hb | ⟨m, hm, hbm⟩
      · simp only [hb]
      · simp only [hm]
        exact hboundNone m hbm
  refine ⟨hsel, ?_⟩
  unfold buildActionFromLlm
  rcases ha with rfl | rfl | rfl | rfl | rfl
  · simp only [hres, hsel]
    cases hl : List.lookup "selector" d with
    | none => simp [hl]
    | some v =>
      cases v with
      | obj kvs => exact absurd hl (hinline rfl kvs)
      | null => simp [hl]
      | bool b => simp [hl]
      | int n => simp [hl]
      | float q => simp [hl]
      | str s => simp [hl]
      | arr xs => simp [hl]
  · simp [hres, hsel]
  · simp [hres, hsel]
  · simp [hres, hsel]
  · simp [hres, hsel]

theorem c5_bad_candidate_id_witness :
    resolveIntent [("action", JValue.str "type"), ("candidate_id", JValue.str "abc")] =
        some "type" ∧
      pyIntOfString "abc" = none ∧
      resolveCandidateSelector
          [("action", JValue.str "type"), ("candidate_id", JValue.str "abc")] [] = none ∧
      buildActionFromLlm
          [("action", JValue.str "type"), ("candidate_id", JValue.str "abc")] [] =
        .ok none := by
  have h := c5_bad_candidate_id
    [("action", JValue.str "type"), ("candidate_id", JValue.str "abc")] [] "type"
    rfl (Or.inr (Or.inl rfl))
    (Or.inr ⟨"abc", rfl, Or.inl rfl⟩)
    (fun hck => absurd hck (by decide))
  exact ⟨rfl, rfl, h.1, h.2⟩

/-- C7 counterexample: the wait branch does not clamp the parsed value,
so a negative seconds field produces a wait action with a negative
time_seconds, refuting the claimed lower bound of 0. -/
theorem c7_counterexample :
    buildActionFromLlm [("action", .str "wait"), ("seconds", .int (-5))] [] =
        .ok (some (.wait (-5))) ∧ ((-5 : ℚ) < 0) :=
  ⟨rfl, by norm_num⟩

/-- C7 as amended: every wait intent yields a wait action and the
construction never fails; the seconds value is exactly the float parsed
(pyFloat) from the seconds / time / time_seconds field chain, an
unparsable value falls back to the default 1.0, and when all three
fields are absent the value is the default 1.0.  The value is not
guaranteed to be at least 0. -/
theorem c7_wait_total (d : List (String × JValue)) (cands : List CandidateCore)
    (h : resolveIntent d = some "wait") :
    (∃ s : ℚ, buildActionFromLlm d cands = .ok (some (.wait s))) ∧
      (∀ q : ℚ, pyFloat ((List.lookup "seconds" d).getD
          ((List.lookup "time" d).getD
            ((List.lookup "time_seconds" d).getD (.float 1)))) = .ok q →
        buildActionFromLlm d cands = .ok (some (.wait q))) ∧
      (∀ e, pyFloat ((List.lookup "seconds" d).getD
          ((List.lookup "time" d).getD
            ((List.lookup "time_seconds" d).getD (.float 1)))) = .error e →
        buildActionFromLlm d cands = .ok (some (.wait 1))) ∧
      (List.lookup "seconds" d = none → List.lookup "time" d = none →
        List.lookup "time_seconds" d = none →
        buildActionFromLlm d cands = .ok (some (.wait 1))) := by
  have hreduce : buildActionFromLlm d cands =
      .ok (some (.wait (match pyFloat ((List.lookup "seconds" d).getD
        ((List.lookup "time" d).getD
          ((List.lookup "time_seconds" d).getD (.float 1)))) with
        | .ok q => q
        | .error _ => 1))) := by
    unfold buildActionFromLlm
    simp only [h]
    simp
  refine ⟨⟨_, hreduce⟩, ?_, ?_, ?_⟩
  · intro q hq
    simp only [hq] at hreduce
    exact hreduce
  · intro e he
    simp only [he] at hreduce
    exact hreduce
  · intro h1 h2 h3
    simp only [h1, h2, h3] at hreduce
    simpa [pyFloat] using hreduce

theorem c7_wait_total_witness :
    resolveIntent [("action", JValue.str "wait"), ("time", JValue.int 3)] = some "wait" ∧
      pyFloat (JValue.int 3) = .ok 3 ∧
      buildActionFromLlm [("action", JValue.str "wait"), ("time", JValue.int 3)] [] =
        .ok (some (.wait 3)) ∧
      pyFloat (JValue.str "abc") = .error "ValueError" ∧
      buildActionFromLlm [("action", JValue.str "wait"), ("seconds", JValue.str "abc")] [] =
        .ok (some (.wait 1)) ∧
      buildActionFromLlm [("action", JValue.str "wait")] [] = .ok (some (.wait 1)) :=
  ⟨rfl, rfl,
    (c7_wait_total [("action", JValue.str "wait"), ("time", JValue.int 3)] [] rfl).2.1 3 rfl,
    rfl,
    (c7_wait_total [("action", JValue.str "wait"), ("seconds", JValue.str "abc")] []
      rfl).2.2.1 "ValueError" rfl,
    (c7_wait_total [("action", JValue.str "wait")] [] rfl).2.2.2 rfl rfl rfl⟩

/-! ## Claim theorems: the decision parser (C6) -/

theorem c2_dedup_key_unique_witness :
    ((parse_html [.elem "button" [("id", "b")] [.text "Go"]]).Pairwise fun a b =>
        (a.2.tag, a.2.selector.value, pyTake a.2.text 30) ≠
          (b.2.tag, b.2.selector.value, pyTake b.2.text 30)) :=
  (c2_dedup_key_unique [.elem "button" [("id", "b")] [.text "Go"]]).1

theorem c8_priority_sorted_witness :
    ((parse_html [.elem "a" [("href", "/about")] [.text "About"]]).Pairwise fun a b =>
        priOf a.2 ≤ priOf b.2) :=
  (c8_priority_sorted [.elem "a" [("href", "/about")] [.text "About"]]).1
